import Mathlib

/-!
Verification of the federation core of the `awesome-mcp-proxy` MCP gateway.

The development shallowly embeds the Go source of the repository:

* `gateway/backend.go` — the two `Backend` transport variants (`HTTPBackend`,
  `StdioBackend`), their `sendJSONRPC` / `Initialize` / `SendRequest`
  operations and the health flag, and `BackendManager` (the registry);
* `gateway/capability.go` — `CapabilityDiscoverer.DiscoverCapabilities`,
  `discoverTools` / `discoverResources` / `discoverPrompts` and the
  `RoutingTable`;
* `gateway/metatools.go` — `MetaToolHandler.HandleCallTool`,
  `HandleDescribeTool`, `ValidateMetaToolCall` and `IsMetaTool`;
* `config/config.go` — `validateConfig` / `validateBackend`.

Go maps are modelled as association lists with overwrite-on-insert
(`minsert`); transport and remote behaviour that lives outside the program
(the network, the child process) is supplied to each embedded operation as an
explicit "wire outcome" value, so every function is a pure state transformer
over the observable fields of the backend.
-/

namespace MCPProxy

/-! ### Go map model: association lists with overwrite-on-insert -/

/-- Read from a Go `map[string]β` (the `v, ok := m[k]` form): `some` when the
key is present. -/
def mlookup {β : Type} (m : List (String × β)) (k : String) : Option β :=
  match m with
  | [] => none
  | (k1, v1) :: rest => if k1 == k then some v1 else mlookup rest k

/-- Insertion into a Go `map[string]β`: overwrite the binding if the key is
present, otherwise add it. -/
def minsert {β : Type} (m : List (String × β)) (k : String) (v : β) :
    List (String × β) :=
  match m with
  | [] => [(k, v)]
  | (k1, v1) :: rest =>
      if k1 == k then (k, v) :: rest else (k1, v1) :: minsert rest k v

theorem mlookup_minsert {β : Type} (m : List (String × β)) (k v t) :
    mlookup (minsert m k v) t = if k == t then some v else mlookup m t := by
  induction m with
  | nil => simp [minsert, mlookup]
  | cons hd tl ih =>
      obtain ⟨k1, v1⟩ := hd
      by_cases hk : k1 = k
      · subst hk
        by_cases ht : k1 = t <;> simp [minsert, mlookup, ht, beq_iff_eq]
      · by_cases ht : k1 = t
        · subst ht
          have hkt : ¬k = k1 := fun h => hk h.symm
          simp [minsert, mlookup, beq_iff_eq, hk, hkt]
        · simp [minsert, mlookup, beq_iff_eq, hk, ht, ih]

theorem mem_minsert {β : Type} (m : List (String × β)) (k v q)
    (h : q ∈ minsert m k v) : q ∈ m ∨ q = (k, v) := by
  induction m with
  | nil =>
      simp only [minsert, List.mem_singleton] at h
      exact Or.inr h
  | cons hd tl ih =>
      obtain ⟨k1, v1⟩ := hd
      by_cases hk : k1 = k
      · subst hk
        simp only [minsert, beq_self_eq_true, if_true, List.mem_cons] at h
        rcases h with h1 | h1
        · exact Or.inr h1
        · exact Or.inl (List.mem_cons_of_mem _ h1)
      · simp only [minsert, beq_iff_eq, hk, if_false, List.mem_cons] at h
        rcases h with h1 | h1
        · exact Or.inl (by simp [h1])
        · rcases ih h1 with h2 | h2
          · exact Or.inl (List.mem_cons_of_mem _ h2)
          · exact Or.inr h2

/-! ### Meta-tool facade (`gateway/metatools.go`) -/

/-- `mcp.TextContent` — the text payload of a tool result. -/
structure TextContent where
  text : String
deriving DecidableEq, Repr

/-- `mcp.CallToolResult` — content list plus the `isError` marker. -/
structure CallToolResult where
  content : List TextContent
  isError : Bool
deriving DecidableEq, Repr

/-- The error-shaped `CallToolResult` the meta-tool handlers build: a single
text content carrying the message, `IsError: true`. -/
def errorResult (msg : String) : CallToolResult :=
  { content := [⟨msg⟩], isError := true }

/-- `IsMetaTool` from `gateway/metatools.go`: recognizes exactly the three
synthetic tools. -/
def IsMetaTool (toolName : String) : Bool :=
  toolName == "list_tools" || toolName == "describe_tool" ||
    toolName == "call_tool"

/-- `ValidateMetaToolCall`: the `switch` returns `(true, nil)` for the three
meta-tool names and `(false, error)` for every other name. The Go error text
is modelled verbatim. -/
def ValidateMetaToolCall (toolName : String) : Bool × Option String :=
  if toolName == "list_tools" || toolName == "describe_tool" ||
      toolName == "call_tool" then
    (true, none)
  else
    (false, some ("direct tool calls are prohibited. Use meta-tools instead. Requested tool: " ++ toolName))

/-- The parameter values `MetaToolHandler` forwards in a `SendRequest`:
either the empty object `struct{}{}` (used for `tools/list`) or the
`{name, arguments}` pair built by `HandleCallTool`. The type of the
`arguments` object is abstract (`α` stands for `map[string]interface{}`). -/
inductive ReqParams (α : Type) where
  | emptyObj : ReqParams α
  | toolCall (name : String) (arguments : α) : ReqParams α
deriving DecidableEq, Repr

/-- The view of a `Backend` that `MetaToolHandler` uses: the value of
`IsHealthy()` and the function from a request (method and params) to the
outcome of `SendRequest` — either a Go error (its message) or the raw
response (`ρ` stands for `*json.RawMessage`). -/
structure HBackend (α ρ : Type) where
  healthy : Bool
  send : String → ReqParams α → Except String ρ

/-- `MetaToolHandler.HandleCallTool`. Besides the `CallToolResult` the
embedding returns the trace of downstream `SendRequest` calls as
`(backend name, method, params)` triples, which in the Go code are the
side effects on the routed backend. `parseResult` stands for
`json.Unmarshal` of the raw response into `mcp.CallToolResult`. -/
def HandleCallTool {α ρ : Type} (toolsMap : List (String × String))
    (backends : List (String × HBackend α ρ))
    (parseResult : ρ → Option CallToolResult)
    (toolName : String) (arguments : α) :
    CallToolResult × List (String × String × ReqParams α) :=
  match mlookup toolsMap toolName with
  | none =>
      (errorResult ("Tool \x27" ++ toolName ++ "\x27 not found"), [])
  | some backendName =>
      match mlookup backends backendName with
      | none =>
          (errorResult ("Backend \x27" ++ backendName ++ "\x27 not available"),
            [])
      | some b =>
          if !b.healthy then
            (errorResult
              ("Backend \x27" ++ backendName ++ "\x27 is not healthy"), [])
          else
            let req := ReqParams.toolCall toolName arguments
            match b.send "tools/call" req with
            | .error e =>
                (errorResult ("Failed to call tool on backend: " ++ e),
                  [(backendName, "tools/call", req)])
            | .ok resp =>
                match parseResult resp with
                | none =>
                    (errorResult "Failed to parse tool response",
                      [(backendName, "tools/call", req)])
                | some toolResult =>
                    (toolResult, [(backendName, "tools/call", req)])

/-- `mcp.Tool`: name, description, input schema (`σ` abstracts the schema). -/
structure MTool (σ : Type) where
  name : String
  description : String
  inputSchema : σ

/-- `MetaToolHandler.HandleDescribeTool`. `parseTools` stands for
`json.Unmarshal` of the `tools/list` response, `marshalTool` for
`json.Marshal` of the matching descriptor. -/
def HandleDescribeTool {α ρ σ : Type} (toolsMap : List (String × String))
    (backends : List (String × HBackend α ρ))
    (parseTools : ρ → Option (List (MTool σ)))
    (marshalTool : MTool σ → Option String)
    (toolName : String) :
    CallToolResult × List (String × String × ReqParams α) :=
  match mlookup toolsMap toolName with
  | none =>
      (errorResult ("Tool \x27" ++ toolName ++ "\x27 not found"), [])
  | some backendName =>
      match mlookup backends backendName with
      | none =>
          (errorResult ("Backend \x27" ++ backendName ++ "\x27 not available"),
            [])
      | some b =>
          let req : ReqParams α := ReqParams.emptyObj
          match b.send "tools/list" req with
          | .error e =>
              (errorResult ("Failed to get tools from backend: " ++ e),
                [(backendName, "tools/list", req)])
          | .ok resp =>
              match parseTools resp with
              | none =>
                  (errorResult "Failed to parse tools response",
                    [(backendName, "tools/list", req)])
              | some tools =>
                  match tools.find? (fun t => t.name == toolName) with
                  | some tool =>
                      match marshalTool tool with
                      | none =>
                          (errorResult "Failed to serialize tool description",
                            [(backendName, "tools/list", req)])
                      | some s =>
                          ({ content := [⟨s⟩], isError := false },
                            [(backendName, "tools/list", req)])
                  | none =>
                      (errorResult ("Tool \x27" ++ toolName ++
                          "\x27 not found in backend \x27" ++ backendName ++
                          "\x27"),
                        [(backendName, "tools/list", req)])

/-- C1: with the tool routed to a registered backend, a healthy backend
receives exactly one `tools/call` carrying `{name: tool_name, arguments}`
and a well-formed remote result is returned unchanged, while an unhealthy
backend receives nothing and the caller gets the "is not healthy" error
result. -/
theorem handle_call_tool_spec {α ρ : Type} (toolsMap : List (String × String))
    (backends : List (String × HBackend α ρ))
    (parseResult : ρ → Option CallToolResult)
    (toolName : String) (arguments : α) (backendName : String)
    (b : HBackend α ρ)
    (hrt : mlookup toolsMap toolName = some backendName)
    (hbm : mlookup backends backendName = some b) :
    (b.healthy = true →
      (HandleCallTool toolsMap backends parseResult toolName arguments).2 =
        [(backendName, "tools/call", .toolCall toolName arguments)] ∧
      ∀ resp r,
        b.send "tools/call" (.toolCall toolName arguments) = .ok resp →
        parseResult resp = some r →
        (HandleCallTool toolsMap backends parseResult toolName arguments).1 =
          r) ∧
    (b.healthy = false →
      (HandleCallTool toolsMap backends parseResult toolName arguments).2 =
        [] ∧
      (HandleCallTool toolsMap backends parseResult toolName arguments).1 =
        errorResult ("Backend \x27" ++ backendName ++ "\x27 is not healthy")) := by
  constructor
  · intro hh
    constructor
    · simp only [HandleCallTool, hrt, hbm, hh]
      cases hsend : b.send "tools/call" (.toolCall toolName arguments) with
      | error e => simp [hsend]
      | ok resp =>
          cases hp : parseResult resp with
          | none => simp [hsend, hp]
          | some r => simp [hsend, hp]
    · intro resp r hsend hp
      simp [HandleCallTool, hrt, hbm, hh, hsend, hp]
  · intro hh
    constructor <;> simp [HandleCallTool, hrt, hbm, hh]

/-- Sample remote tool result used to instantiate the meta-tool theorems. -/
def sampleResult : CallToolResult :=
  { content := [⟨"remote says hi"⟩], isError := false }

/-- Witness for `handle_call_tool_spec` at a concrete routing table, registry
and backend. -/
theorem handle_call_tool_spec_witness :
    (HandleCallTool [("git_commit", "B1")]
        [("B1", ⟨true, fun _ _ => Except.ok ()⟩)]
        (fun _ => some sampleResult) "git_commit" ()).2 =
      [("B1", "tools/call", .toolCall "git_commit" ())] ∧
    (HandleCallTool [("git_commit", "B1")]
        [("B1", ⟨true, fun _ _ => Except.ok ()⟩)]
        (fun _ => some sampleResult) "git_commit" ()).1 = sampleResult := by
  have h := handle_call_tool_spec [("git_commit", "B1")]
    [("B1", ⟨true, fun _ _ => Except.ok ()⟩)]
    (fun _ => some sampleResult) "git_commit" () "B1"
    ⟨true, fun _ _ => Except.ok ()⟩ rfl rfl
  have h1 := h.1 rfl
  exact ⟨h1.1, h1.2 () sampleResult rfl rfl⟩

/-- C7: a `call_tool` or `describe_tool` invocation whose `tool_name` is not
in the routing table makes no backend request and yields a `CallToolResult`
with `isError: true` naming the tool. -/
theorem meta_tool_not_found {α ρ σ : Type} (toolsMap : List (String × String))
    (backends : List (String × HBackend α ρ))
    (parseResult : ρ → Option CallToolResult)
    (parseTools : ρ → Option (List (MTool σ)))
    (marshalTool : MTool σ → Option String)
    (toolName : String) (arguments : α)
    (h : mlookup toolsMap toolName = none) :
    HandleCallTool toolsMap backends parseResult toolName arguments =
      (errorResult ("Tool \x27" ++ toolName ++ "\x27 not found"), []) ∧
    HandleDescribeTool toolsMap backends parseTools marshalTool toolName =
      (errorResult ("Tool \x27" ++ toolName ++ "\x27 not found"), []) := by
  constructor <;> simp [HandleCallTool, HandleDescribeTool, h]

/-- Witness for `meta_tool_not_found` on an empty routing table. -/
theorem meta_tool_not_found_witness :
    HandleCallTool (α := Unit) (ρ := Unit) [] [] (fun _ => none) "ghost" () =
      (errorResult ("Tool \x27ghost\x27 not found"), []) ∧
    HandleDescribeTool (α := Unit) (ρ := Unit) (σ := Unit) [] []
        (fun _ => none) (fun _ => none) "ghost" =
      (errorResult ("Tool \x27ghost\x27 not found"), []) := by
  have h := meta_tool_not_found (α := Unit) (ρ := Unit) (σ := Unit) [] []
    (fun _ => none) (fun _ => none) (fun _ => none) "ghost" () rfl
  exact ⟨h.1, h.2⟩

/-- C8: `IsMetaTool(x)` holds exactly on the three meta-tool names, and
`ValidateMetaToolCall` returns an error exactly for names outside that set. -/
theorem is_meta_tool_spec (x : String) :
    (IsMetaTool x = true ↔
      (x = "list_tools" ∨ x = "describe_tool" ∨ x = "call_tool")) ∧
    ((ValidateMetaToolCall x).2.isSome = true ↔
      ¬(x = "list_tools" ∨ x = "describe_tool" ∨ x = "call_tool")) := by
  constructor
  · simp [IsMetaTool, or_assoc]
  · by_cases h : x = "list_tools" ∨ x = "describe_tool" ∨ x = "call_tool"
    · have hb : (x == "list_tools" || x == "describe_tool" ||
          x == "call_tool") = true := by
        rcases h with h | h | h <;> simp [h]
      simp [ValidateMetaToolCall, hb, h]
    · have hb : (x == "list_tools" || x == "describe_tool" ||
          x == "call_tool") = false := by
        push_neg at h
        simp [beq_iff_eq, h.1, h.2.1, h.2.2]
      simp only [ValidateMetaToolCall, hb, Bool.false_eq_true, if_false]
      simpa using h

/-! ### Capability discovery and routing table (`gateway/capability.go`) -/

/-- `GatewayCapabilities`: the three aggregated capability flags. -/
structure GatewayCapabilities where
  tools : Bool
  resources : Bool
  prompts : Bool
deriving DecidableEq, Repr

/-- `RoutingTable`: three name-to-backend-name maps. -/
structure RoutingTable where
  toolsMap : List (String × String)
  resourcesMap : List (String × String)
  promptsMap : List (String × String)
deriving DecidableEq, Repr

/-- `NewRoutingTable()`: three empty maps. -/
def NewRoutingTable : RoutingTable := ⟨[], [], []⟩

/-- Presence of the three capability sub-objects in the
`initialize` result: `tools = true` models
`initResp.Capabilities != nil && initResp.Capabilities.Tools != nil`. -/
structure BackendCaps where
  tools : Bool
  resources : Bool
  prompts : Bool
deriving DecidableEq, Repr

/-- What one backend does during discovery. `initResult` is `none` when its
`Initialize` call fails; each `*List` field is `none` when the corresponding
listing request (or the unmarshal of its response) fails, and otherwise the
returned names (tool names, resource URIs, prompt names). -/
structure DiscBackend where
  name : String
  initResult : Option BackendCaps
  toolsList : Option (List String)
  resourcesList : Option (List String)
  promptsList : Option (List String)
deriving DecidableEq, Repr

/-- The loop body of `discoverTools` / `discoverResources` /
`discoverPrompts`: insert `name → backend name` for every listed name. -/
def insertAll (m : List (String × String)) (names : List String)
    (backendName : String) : List (String × String) :=
  names.foldl (fun acc n => minsert acc n backendName) m

/-- One `discover*` call: on listing success insert all names, on failure
(logged in Go) leave the map unchanged. -/
def discoverList (m : List (String × String)) (listed : Option (List String))
    (backendName : String) : List (String × String) :=
  match listed with
  | some names => insertAll m names backendName
  | none => m

/-- One iteration of the `DiscoverCapabilities` loop for one backend: skip it
if `Initialize` failed; otherwise set each aggregated flag whose sub-object
is present and run the corresponding listing. -/
def discoverBackend (st : GatewayCapabilities × RoutingTable)
    (b : DiscBackend) : GatewayCapabilities × RoutingTable :=
  match b.initResult with
  | none => st
  | some caps =>
      ({ tools := if caps.tools then true else st.1.tools,
         resources := if caps.resources then true else st.1.resources,
         prompts := if caps.prompts then true else st.1.prompts },
       { toolsMap :=
           if caps.tools then discoverList st.2.toolsMap b.toolsList b.name
           else st.2.toolsMap,
         resourcesMap :=
           if caps.resources then
             discoverList st.2.resourcesMap b.resourcesList b.name
           else st.2.resourcesMap,
         promptsMap :=
           if caps.prompts then
             discoverList st.2.promptsMap b.promptsList b.name
           else st.2.promptsMap })

/-- `CapabilityDiscoverer.DiscoverCapabilities`: fold the per-backend step
over the snapshot of healthy backends, starting from all-false flags and the
fresh routing table. -/
def DiscoverCapabilities (backends : List DiscBackend) :
    GatewayCapabilities × RoutingTable :=
  backends.foldl discoverBackend (⟨false, false, false⟩, NewRoutingTable)

/-- Boolean membership of a string in a list of names. -/
def scontains (names : List String) (t : String) : Bool :=
  match names with
  | [] => false
  | n :: rest => n == t || scontains rest t

theorem scontains_iff_mem (names : List String) (t : String) :
    scontains names t = true ↔ t ∈ names := by
  induction names with
  | nil => simp [scontains]
  | cons n rest ih =>
      simp only [scontains, Bool.or_eq_true, beq_iff_eq, List.mem_cons, ih]
      constructor
      · rintro (h | h)
        · exact Or.inl h.symm
        · exact Or.inr h
      · rintro (h | h)
        · exact Or.inl h.symm
        · exact Or.inr h

/-- Whether a backend inserts `t` into the tools map during discovery:
its `Initialize` succeeded with a `tools` capability and its `tools/list`
succeeded returning `t`. -/
def contributesTool (b : DiscBackend) (t : String) : Bool :=
  match b.initResult with
  | none => false
  | some caps =>
      caps.tools &&
        (match b.toolsList with
         | some names => scontains names t
         | none => false)

theorem mlookup_insertAll (m : List (String × String)) (names : List String)
    (backendName t : String) :
    mlookup (insertAll m names backendName) t =
      if scontains names t then some backendName else mlookup m t := by
  induction names generalizing m with
  | nil => simp [insertAll, scontains]
  | cons n rest ih =>
      have step : insertAll m (n :: rest) backendName =
          insertAll (minsert m n backendName) rest backendName := rfl
      rw [step, ih, mlookup_minsert]
      by_cases hn : n = t
      · subst hn
        by_cases hr : scontains rest n <;> simp [scontains, hr]
      · have hb : (n == t) = false := by simp [beq_iff_eq, hn]
        by_cases hr : scontains rest t <;> simp [scontains, hr, hb]

theorem mem_insertAll (m : List (String × String)) (names : List String)
    (backendName : String) (q : String × String)
    (h : q ∈ insertAll m names backendName) :
    q ∈ m ∨ q.2 = backendName := by
  induction names generalizing m with
  | nil => exact Or.inl h
  | cons n rest ih =>
      have step : insertAll m (n :: rest) backendName =
          insertAll (minsert m n backendName) rest backendName := rfl
      rw [step] at h
      rcases ih _ h with h1 | h1
      · rcases mem_minsert _ _ _ _ h1 with h2 | h2
        · exact Or.inl h2
        · exact Or.inr (by simp [h2])
      · exact Or.inr h1

/-- A non-contributing backend leaves the binding of `t` in the tools map
unchanged. -/
theorem toolsMap_step_skip (st : GatewayCapabilities × RoutingTable)
    (b : DiscBackend) (t : String) (h : contributesTool b t = false) :
    mlookup (discoverBackend st b).2.toolsMap t =
      mlookup st.2.toolsMap t := by
  unfold contributesTool at h
  unfold discoverBackend
  cases hinit : b.initResult with
  | none => rfl
  | some caps =>
      rw [hinit] at h
      by_cases hc : caps.tools
      · cases hl : b.toolsList with
        | none => simp [hc, discoverList, hl]
        | some names =>
            rw [hl] at h
            simp only [hc, Bool.true_and] at h
            simp [hc, discoverList, hl, mlookup_insertAll, h]
      · simp [hc]

/-- A contributing backend leaves `t` bound to its own name. -/
theorem toolsMap_step_hit (st : GatewayCapabilities × RoutingTable)
    (b : DiscBackend) (t : String) (h : contributesTool b t = true) :
    mlookup (discoverBackend st b).2.toolsMap t = some b.name := by
  unfold contributesTool at h
  unfold discoverBackend
  cases hinit : b.initResult with
  | none => rw [hinit] at h; cases h
  | some caps =>
      rw [hinit] at h
      cases hl : b.toolsList with
      | none => rw [hl] at h; simp at h
      | some names =>
          rw [hl] at h
          simp only [Bool.and_eq_true] at h
          simp [h.1, discoverList, hl, mlookup_insertAll, h.2]

/-- Discovery never drops a tools-map binding. -/
theorem toolsMap_step_mono (st : GatewayCapabilities × RoutingTable)
    (b : DiscBackend) (t : String)
    (h : (mlookup st.2.toolsMap t).isSome = true) :
    (mlookup (discoverBackend st b).2.toolsMap t).isSome = true := by
  unfold discoverBackend
  cases b.initResult with
  | none => exact h
  | some caps =>
      by_cases hc : caps.tools
      · cases hl : b.toolsList with
        | none => simpa [hc, discoverList, hl] using h
        | some names =>
            by_cases hn : scontains names t <;>
              simp_all [hc, discoverList, mlookup_insertAll, hn]
      · simpa [hc] using h

theorem toolsMap_fold_mono (bs : List DiscBackend)
    (st : GatewayCapabilities × RoutingTable) (t : String)
    (h : (mlookup st.2.toolsMap t).isSome = true) :
    (mlookup (bs.foldl discoverBackend st).2.toolsMap t).isSome = true := by
  induction bs generalizing st with
  | nil => exact h
  | cons hd tl ih => exact ih _ (toolsMap_step_mono st hd t h)

/-- If every remaining backend either is the routed owner or does not
contribute `t`, the binding `t → owner` survives the rest of the fold. -/
theorem toolsMap_fold_keep (bs : List DiscBackend)
    (st : GatewayCapabilities × RoutingTable) (b : DiscBackend) (t : String)
    (hval : mlookup st.2.toolsMap t = some b.name)
    (hall : ∀ b2 ∈ bs, b2 = b ∨ contributesTool b2 t = false) :
    mlookup (bs.foldl discoverBackend st).2.toolsMap t = some b.name := by
  induction bs generalizing st with
  | nil => exact hval
  | cons hd tl ih =>
      have hhd := hall hd (List.mem_cons_self hd tl)
      have htl : ∀ b2 ∈ tl, b2 = b ∨ contributesTool b2 t = false :=
        fun b2 hb2 => hall b2 (List.mem_cons_of_mem hd hb2)
      rcases hhd with h1 | h1
      · subst h1
        by_cases hc : contributesTool hd t
        · exact ih _ (toolsMap_step_hit st hd t hc) htl
        · have := toolsMap_step_skip st hd t (by simpa using hc)
          exact ih _ (this.trans hval) htl
      · have := toolsMap_step_skip st hd t h1
        exact ih _ (this.trans hval) htl

/-- Starting anywhere, a contributing member of the fold leaves `t` present
in the tools map. -/
theorem toolsMap_fold_hit_isSome (bs : List DiscBackend)
    (st : GatewayCapabilities × RoutingTable) (b : DiscBackend) (t : String)
    (hb : b ∈ bs) (hcontrib : contributesTool b t = true) :
    (mlookup ((bs.foldl discoverBackend st)).2.toolsMap t).isSome = true := by
  induction bs generalizing st with
  | nil => cases hb
  | cons hd tl ih =>
      rcases List.mem_cons.mp hb with h1 | h1
      · subst h1
        exact toolsMap_fold_mono tl _ t
          (by simp [toolsMap_step_hit _ b t hcontrib])
      · exact ih _ h1

/-- Starting anywhere, if `b` is the only contributor of `t` among the
remaining backends, the fold binds `t` to `b.name`. -/
theorem toolsMap_fold_routes (bs : List DiscBackend)
    (st : GatewayCapabilities × RoutingTable) (b : DiscBackend) (t : String)
    (hb : b ∈ bs) (hcontrib : contributesTool b t = true)
    (hnc : ∀ b2 ∈ bs, b2 ≠ b → contributesTool b2 t = false) :
    mlookup ((bs.foldl discoverBackend st)).2.toolsMap t = some b.name := by
  induction bs generalizing st with
  | nil => cases hb
  | cons hd tl ih =>
      by_cases he : hd = b
      · subst he
        refine toolsMap_fold_keep tl _ hd t
          (toolsMap_step_hit _ hd t hcontrib) ?_
        intro b2 hb2
        by_cases he2 : b2 = hd
        · exact Or.inl he2
        · exact Or.inr (hnc b2 (List.mem_cons_of_mem _ hb2) he2)
      · have h1 : b ∈ tl := by
          rcases List.mem_cons.mp hb with h2 | h2
          · exact absurd h2.symm he
          · exact h2
        exact ih _ h1
          (fun b2 hb2 hne => hnc b2 (List.mem_cons_of_mem _ hb2) hne)

/-- C2: every tool name listed by a backend whose `Initialize` and
`tools/list` succeeded is a key of the tools routing map after discovery;
absent a collision from another backend it maps to the name of that backend. -/
theorem discovery_routes_tools (bs : List DiscBackend) (b : DiscBackend)
    (caps : BackendCaps) (names : List String) (t : String)
    (hb : b ∈ bs) (hinit : b.initResult = some caps)
    (htools : caps.tools = true) (hlist : b.toolsList = some names)
    (ht : t ∈ names) :
    (mlookup (DiscoverCapabilities bs).2.toolsMap t).isSome = true ∧
    ((∀ b2 ∈ bs, b2 ≠ b → contributesTool b2 t = false) →
      mlookup (DiscoverCapabilities bs).2.toolsMap t = some b.name) := by
  have hcontrib : contributesTool b t = true := by
    simp [contributesTool, hinit, htools, hlist, scontains_iff_mem, ht]
  exact ⟨toolsMap_fold_hit_isSome bs _ b t hb hcontrib,
    fun hnc => toolsMap_fold_routes bs _ b t hb hcontrib hnc⟩

/-- Witness for `discovery_routes_tools`: the scenario S1 backend B1 owning
`git_commit` next to B2 owning `read_file`. -/
theorem discovery_routes_tools_witness :
    mlookup (DiscoverCapabilities
      [⟨"B1", some ⟨true, false, false⟩, some ["git_commit"], none, none⟩,
       ⟨"B2", some ⟨true, true, false⟩, some ["read_file"],
         some ["file://a"], none⟩]).2.toolsMap "git_commit" = some "B1" := by
  have h := discovery_routes_tools
    [⟨"B1", some ⟨true, false, false⟩, some ["git_commit"], none, none⟩,
     ⟨"B2", some ⟨true, true, false⟩, some ["read_file"],
       some ["file://a"], none⟩]
    ⟨"B1", some ⟨true, false, false⟩, some ["git_commit"], none, none⟩
    ⟨true, false, false⟩ ["git_commit"] "git_commit"
    (by decide) rfl rfl rfl (by decide)
  exact h.2 (by decide)

/-- `tools` capability advertised by a successfully initialized backend. -/
def initTools (b : DiscBackend) : Bool :=
  match b.initResult with
  | some caps => caps.tools
  | none => false

/-- `resources` capability advertised by a successfully initialized backend. -/
def initResources (b : DiscBackend) : Bool :=
  match b.initResult with
  | some caps => caps.resources
  | none => false

/-- `prompts` capability advertised by a successfully initialized backend. -/
def initPrompts (b : DiscBackend) : Bool :=
  match b.initResult with
  | some caps => caps.prompts
  | none => false

theorem flags_discoverBackend (st : GatewayCapabilities × RoutingTable)
    (b : DiscBackend) :
    (discoverBackend st b).1 =
      ⟨st.1.tools || initTools b, st.1.resources || initResources b,
        st.1.prompts || initPrompts b⟩ := by
  unfold discoverBackend initTools initResources initPrompts
  cases b.initResult with
  | none => simp
  | some caps => simp [Bool.or_comm]

theorem flags_fold (bs : List DiscBackend)
    (st : GatewayCapabilities × RoutingTable) :
    (bs.foldl discoverBackend st).1 =
      ⟨st.1.tools || bs.any initTools, st.1.resources || bs.any initResources,
        st.1.prompts || bs.any initPrompts⟩ := by
  induction bs generalizing st with
  | nil => simp
  | cons hd tl ih =>
      have step := flags_discoverBackend st hd
      show (tl.foldl discoverBackend (discoverBackend st hd)).1 = _
      rw [ih, step]
      simp [Bool.or_assoc]

theorem mem_discoverList (m : List (String × String))
    (listed : Option (List String)) (backendName : String) (q : String × String)
    (h : q ∈ discoverList m listed backendName) :
    q ∈ m ∨ q.2 = backendName := by
  cases listed with
  | none => exact Or.inl h
  | some names => exact mem_insertAll m names backendName q h

/-- Value provenance for one discovery step: every binding of any of the
three maps is either pre-existing or names the processed backend, and the
latter only when the `Initialize` of that backend succeeded. -/
theorem mem_discoverBackend (st : GatewayCapabilities × RoutingTable)
    (b : DiscBackend) (q : String × String)
    (h : q ∈ (discoverBackend st b).2.toolsMap ∨
         q ∈ (discoverBackend st b).2.resourcesMap ∨
         q ∈ (discoverBackend st b).2.promptsMap) :
    (q ∈ st.2.toolsMap ∨ q ∈ st.2.resourcesMap ∨ q ∈ st.2.promptsMap) ∨
      (b.initResult.isSome = true ∧ q.2 = b.name) := by
  unfold discoverBackend at h
  cases hinit : b.initResult with
  | none => rw [hinit] at h; exact Or.inl h
  | some caps =>
      rw [hinit] at h
      rcases h with h | h | h
      · by_cases hc : caps.tools
        · simp only [hc, if_true] at h
          rcases mem_discoverList _ _ _ _ h with h1 | h1
          · exact Or.inl (Or.inl h1)
          · exact Or.inr ⟨by simp [hinit], h1⟩
        · simp only [hc, if_false] at h
          exact Or.inl (Or.inl h)
      · by_cases hc : caps.resources
        · simp only [hc, if_true] at h
          rcases mem_discoverList _ _ _ _ h with h1 | h1
          · exact Or.inl (Or.inr (Or.inl h1))
          · exact Or.inr ⟨by simp [hinit], h1⟩
        · simp only [hc, if_false] at h
          exact Or.inl (Or.inr (Or.inl h))
      · by_cases hc : caps.prompts
        · simp only [hc, if_true] at h
          rcases mem_discoverList _ _ _ _ h with h1 | h1
          · exact Or.inl (Or.inr (Or.inr h1))
          · exact Or.inr ⟨by simp [hinit], h1⟩
        · simp only [hc, if_false] at h
          exact Or.inl (Or.inr (Or.inr h))

theorem mem_fold_discover (bs : List DiscBackend)
    (st : GatewayCapabilities × RoutingTable) (q : String × String)
    (h : q ∈ (bs.foldl discoverBackend st).2.toolsMap ∨
         q ∈ (bs.foldl discoverBackend st).2.resourcesMap ∨
         q ∈ (bs.foldl discoverBackend st).2.promptsMap) :
    (q ∈ st.2.toolsMap ∨ q ∈ st.2.resourcesMap ∨ q ∈ st.2.promptsMap) ∨
      ∃ b ∈ bs, b.initResult.isSome = true ∧ q.2 = b.name := by
  induction bs generalizing st with
  | nil => exact Or.inl h
  | cons hd tl ih =>
      rcases ih (discoverBackend st hd) h with h1 | h1
      · rcases mem_discoverBackend st hd q h1 with h2 | h2
        · exact Or.inl h2
        · exact Or.inr ⟨hd, List.mem_cons_self hd tl, h2⟩
      · obtain ⟨b, hb, h2⟩ := h1
        exact Or.inr ⟨b, List.mem_cons_of_mem hd hb, h2⟩

/-- A routing-table binding whose value is the name of some backend in `bs`
whose `Initialize` succeeded during discovery. -/
def namedByInitialized (bs : List DiscBackend) (q : String × String) : Bool :=
  bs.any (fun b => b.initResult.isSome && (b.name == q.2))

/-- C3: the aggregated capability flags equal the per-capability disjunction
over backends whose `Initialize` succeeded; every routing-table binding names
an `Initialize`-succeeded backend (failed backends contribute no routes); and
discovery over zero backends yields all-false flags and the empty table. -/
theorem discovery_capability_flags (bs : List DiscBackend) :
    (DiscoverCapabilities bs).1 =
      ⟨bs.any initTools, bs.any initResources, bs.any initPrompts⟩ ∧
    ((DiscoverCapabilities bs).2.toolsMap.all (namedByInitialized bs) &&
     (DiscoverCapabilities bs).2.resourcesMap.all (namedByInitialized bs) &&
     (DiscoverCapabilities bs).2.promptsMap.all (namedByInitialized bs)) =
      true ∧
    DiscoverCapabilities [] = (⟨false, false, false⟩, NewRoutingTable) := by
  refine ⟨?_, ?_, rfl⟩
  · have h := flags_fold bs (⟨false, false, false⟩, NewRoutingTable)
    simpa [DiscoverCapabilities] using h
  · have key : ∀ q, (q ∈ (DiscoverCapabilities bs).2.toolsMap ∨
        q ∈ (DiscoverCapabilities bs).2.resourcesMap ∨
        q ∈ (DiscoverCapabilities bs).2.promptsMap) →
        namedByInitialized bs q = true := by
      intro q hq
      rcases mem_fold_discover bs _ q hq with h1 | h1
      · simp [NewRoutingTable] at h1
      · obtain ⟨b, hb, hsome, hname⟩ := h1
        simp only [namedByInitialized, List.any_eq_true]
        exact ⟨b, hb, by simp [hsome, beq_iff_eq, hname]⟩
    simp only [Bool.and_eq_true, List.all_eq_true]
    refine ⟨⟨?_, ?_⟩, ?_⟩
    · exact fun q hq => key q (Or.inl hq)
    · exact fun q hq => key q (Or.inr (Or.inl hq))
    · exact fun q hq => key q (Or.inr (Or.inr hq))

/-! ### Backend transports (`gateway/backend.go`)

Each embedded operation takes the observable backend state plus a "wire
outcome" describing what the network or child process did, and returns the
decoded result together with the new state. `ρ` abstracts the raw
`*json.RawMessage` result payload, `π` the request params value. -/

deriving instance DecidableEq for Except

/-- The JSON-RPC request envelope `{jsonrpc, id, method, params}`. -/
structure ReqEnvelope (π : Type) where
  jsonrpc : String
  id : Int
  method : String
  params : π
deriving DecidableEq, Repr

/-- The envelope built by `HTTPBackend.sendJSONRPC`: the `id` field is the
literal constant `1` (the struct has no request-id counter). -/
def httpBuildRequest {π : Type} (method : String) (params : π) :
    ReqEnvelope π :=
  { jsonrpc := "2.0", id := 1, method := method, params := params }

/-- The envelope built by `StdioBackend.sendJSONRPC` from the consumed
counter value. -/
def stdioBuildRequest {π : Type} (currentID : Int) (method : String)
    (params : π) : ReqEnvelope π :=
  { jsonrpc := "2.0", id := currentID, method := method, params := params }

/-- The decoded JSON-RPC response envelope, as read into
`map[string]*json.RawMessage`: an optional `error` member (`none` covers
both an absent and a JSON-null member, which Go treats alike) and an
optional `result` member. -/
structure Envelope (ρ : Type) where
  error : Option String
  result : Option ρ
deriving DecidableEq, Repr

/-- The shapes an HTTP response body can take. An SSE stream carries the
envelope behind an `event: message` / `data: ...` framing. -/
inductive HTTPBody (ρ : Type) where
  | jsonEnvelope (env : Envelope ρ) : HTTPBody ρ
  | sseStream (env : Envelope ρ) : HTTPBody ρ
  | malformed : HTTPBody ρ
deriving DecidableEq, Repr

/-- `json.Unmarshal(body, &jsonRPCResponse)` over the body shapes: only a
body that *is* a JSON envelope decodes. An SSE stream is the text
`event: message\ndata: ...\n\n`, which is not a JSON document, so
`json.Unmarshal` of it fails; the code never looks for a `data:` line. -/
def unmarshalBody {ρ : Type} : HTTPBody ρ → Option (Envelope ρ)
  | .jsonEnvelope env => some env
  | .sseStream _ => none
  | .malformed => none

/-- Modelled from the spec for comparison with `unmarshalBody`: the
spec-mandated extraction that takes a plain envelope directly and otherwise
pulls the envelope out of the first `data:` line of an SSE stream. -/
def specExtractEnvelope {ρ : Type} : HTTPBody ρ → Option (Envelope ρ)
  | .jsonEnvelope env => some env
  | .sseStream env => some env
  | .malformed => none

/-- What the HTTP transport did for one call: `doFail` is a `client.Do`
error; otherwise a status code arrives with a body, where `none` stands for
an `io.ReadAll` failure. -/
inductive HTTPWire (ρ : Type) where
  | doFail : HTTPWire ρ
  | resp (status : Nat) (body : Option (HTTPBody ρ)) : HTTPWire ρ
deriving DecidableEq, Repr

/-- The Go error values the backend operations return. -/
inductive CallError where
  | httpFail
  | badStatus (code : Nat)
  | readFail
  | unmarshalFail
  | remote (e : String)
  | noResult
  | writeFail
  | decodeFail
  | startFail
deriving DecidableEq, Repr

/-- Observable outcome of one `HTTPBackend.sendJSONRPC` call: the `id` sent
in the envelope, the returned result or error, and the new `healthy` flag. -/
structure HTTPCallResult (ρ : Type) where
  sentId : Int
  res : Except CallError ρ
  healthy : Bool
deriving DecidableEq, Repr

/-- `HTTPBackend.sendJSONRPC`. Health transitions follow the source line by
line: `client.Do` failure and a non-200 status set `healthy` to `false`;
body-read failure, envelope-unmarshal failure, a remote `error` member and a
missing `result` member all return before any `setHealthy` call; reaching
the `result` sets `healthy` to `true`. -/
def httpSendJSONRPC {π ρ : Type} (healthy : Bool) (method : String)
    (params : π) (wire : HTTPWire ρ) : HTTPCallResult ρ :=
  let request := httpBuildRequest method params
  match wire with
  | .doFail => ⟨request.id, .error .httpFail, false⟩
  | .resp status body =>
      if status != 200 then ⟨request.id, .error (.badStatus status), false⟩
      else
        match body with
        | none => ⟨request.id, .error .readFail, healthy⟩
        | some b =>
            match unmarshalBody b with
            | none => ⟨request.id, .error .unmarshalFail, healthy⟩
            | some env =>
                match env.error with
                | some e => ⟨request.id, .error (.remote e), healthy⟩
                | none =>
                    match env.result with
                    | none => ⟨request.id, .error .noResult, healthy⟩
                    | some r => ⟨request.id, .ok r, true⟩

/-- `HTTPBackend.SendRequest` simply forwards to `sendJSONRPC`. -/
def httpSendRequest {π ρ : Type} (healthy : Bool) (method : String)
    (params : π) (wire : HTTPWire ρ) : HTTPCallResult ρ :=
  httpSendJSONRPC healthy method params wire

/-- `HTTPBackend.Initialize`: send `initialize`; on *any* `sendJSONRPC`
error call `setHealthy(false)`; on success attempt to unmarshal the
`InitializeResult` (`parseInit`), whose failure returns without touching
the flag. -/
def httpInitialize {π ρ ι : Type} (healthy : Bool) (params : π)
    (wire : HTTPWire ρ) (parseInit : ρ → Option ι) :
    Except CallError ι × Bool :=
  let call := httpSendJSONRPC healthy "initialize" params wire
  match call.res with
  | .error e => (.error e, false)
  | .ok r =>
      match parseInit r with
      | none => (.error .unmarshalFail, call.healthy)
      | some result => (.ok result, call.healthy)

/-- Observable state of a `StdioBackend`: whether `b.cmd` and `b.stdin` have
been set by `start()`, the `healthy` flag and the `reqID` counter. -/
structure StdioState where
  cmdSet : Bool
  stdinSet : Bool
  healthy : Bool
  reqID : Int
deriving DecidableEq, Repr

/-- `NewStdioBackend`: no process yet, `healthy: true`, `reqID: 1`. -/
def newStdioBackend : StdioState :=
  { cmdSet := false, stdinSet := false, healthy := true, reqID := 1 }

/-- What the child process did for one call: the `stdin.Write` failed, the
stdout JSON decode failed, or an envelope was decoded. -/
inductive StdioWire (ρ : Type) where
  | writeFail : StdioWire ρ
  | decodeFail : StdioWire ρ
  | envelope (env : Envelope ρ) : StdioWire ρ
deriving DecidableEq, Repr

/-- Outcome of one `StdioBackend.sendJSONRPC` call. `panics` is the nil
pointer dereference of `b.stdin.Write` when no pipe exists. -/
inductive StdioResult (ρ : Type) where
  | panics : StdioResult ρ
  | returns (res : Except CallError ρ) (st : StdioState) (sentId : Int) :
      StdioResult ρ
deriving DecidableEq, Repr

/-- `StdioBackend.sendJSONRPC`: consume and increment `reqID` first (under
the mutex), build the envelope, write it to `b.stdin` — a nil pointer
dereference when `start()` has not created the pipe — then decode one JSON
value from stdout. Write and decode failures set `healthy` to `false`; a
remote `error` member and a missing `result` return before any `setHealthy`;
success sets `healthy` to `true`. -/
def stdioSendJSONRPC {π ρ : Type} (st : StdioState) (method : String)
    (params : π) (wire : StdioWire ρ) : StdioResult ρ :=
  let currentID := st.reqID
  let st1 : StdioState := { st with reqID := st.reqID + 1 }
  let request := stdioBuildRequest currentID method params
  if st1.stdinSet then
    match wire with
    | .writeFail =>
        .returns (.error .writeFail) { st1 with healthy := false } request.id
    | .decodeFail =>
        .returns (.error .decodeFail) { st1 with healthy := false } request.id
    | .envelope env =>
        match env.error with
        | some e => .returns (.error (.remote e)) st1 request.id
        | none =>
            match env.result with
            | none => .returns (.error .noResult) st1 request.id
            | some r =>
                .returns (.ok r) { st1 with healthy := true } request.id
  else
    .panics

/-- `StdioBackend.SendRequest` simply forwards to `sendJSONRPC`. -/
def stdioSendRequest {π ρ : Type} (st : StdioState) (method : String)
    (params : π) (wire : StdioWire ρ) : StdioResult ρ :=
  stdioSendJSONRPC st method params wire

/-- How an attempt to start the child process goes: which of
`StdinPipe` / `StdoutPipe` / `cmd.Start` fails, if any. -/
inductive SpawnOutcome where
  | stdinPipeFail
  | stdoutPipeFail
  | startFail
  | started
deriving DecidableEq, Repr

/-- `StdioBackend.start`: a no-op once `b.cmd` is non-nil; otherwise `b.cmd`
is assigned before the pipes, so a later failure still leaves `cmdSet`, and
`b.stdin` is only set once `StdinPipe` succeeded. Returns whether `start`
returned nil. -/
def stdioStart (st : StdioState) (spawn : SpawnOutcome) : Bool × StdioState :=
  if st.cmdSet then (true, st)
  else
    let st1 := { st with cmdSet := true }
    match spawn with
    | .stdinPipeFail => (false, st1)
    | .stdoutPipeFail => (false, { st1 with stdinSet := true })
    | .startFail => (false, { st1 with stdinSet := true })
    | .started => (true, { st1 with stdinSet := true })

/-- Outcome of `StdioBackend.Initialize`. -/
inductive StdioInitResult (ι : Type) where
  | panics : StdioInitResult ι
  | fails (e : CallError) (st : StdioState) : StdioInitResult ι
  | ok (res : ι) (st : StdioState) : StdioInitResult ι

/-- `StdioBackend.Initialize`: run `start()` (its failure returns without
touching the flag), send `initialize`; on any send error call
`setHealthy(false)`; on success attempt to unmarshal the
`InitializeResult`, whose failure returns without touching the flag. -/
def stdioInitialize {π ρ ι : Type} (st : StdioState) (spawn : SpawnOutcome)
    (params : π) (wire : StdioWire ρ) (parseInit : ρ → Option ι) :
    StdioInitResult ι :=
  match stdioStart st spawn with
  | (false, st1) => .fails .startFail st1
  | (true, st1) =>
      match stdioSendJSONRPC st1 "initialize" params wire with
      | .panics => .panics
      | .returns (.error e) st2 _ =>
          .fails e { st2 with healthy := false }
      | .returns (.ok r) st2 _ =>
          match parseInit r with
          | none => .fails .unmarshalFail st2
          | some res => .ok res { st2 with healthy := true }

/-- The ids of the envelopes successively sent by one stdio backend, one
call after the other (a panic kills the process and ends the trace). -/
def stdioRunIds {π ρ : Type} (st : StdioState) (method : String) (params : π)
    (wires : List (StdioWire ρ)) : List Int :=
  match wires with
  | [] => []
  | w :: ws =>
      match stdioSendJSONRPC st method params w with
      | .panics => []
      | .returns _ st2 sentId => sentId :: stdioRunIds st2 method params ws

/-- C4 (amended): on `SendRequest`, a `client.Do` failure, a non-2xx status,
a stdio write failure and a stdio decode failure set `healthy` to `false`
and a success sets it to `true`; but an HTTP body-read failure, an HTTP
envelope-parse failure, a missing `result` and a remote JSON-RPC error all
leave the flag unchanged. On `Initialize` (both variants), any `sendJSONRPC`
error — the remote JSON-RPC error included — sets `healthy` to `false`,
while a stdio `start()` failure returns with the flag untouched and an
`InitializeResult`-unmarshal failure returns with the flag still `true`
from the just-succeeded send. -/
theorem backend_health_policy {π ρ ι : Type} (h : Bool) (st st0 : StdioState)
    (spawn : SpawnOutcome) (s : Nat) (ob : Option (HTTPBody ρ))
    (bb : HTTPBody ρ) (e : String) (res : Option ρ) (r : ρ) (method : String)
    (params : π) (p : ρ → Option ι)
    (hs : s ≠ 200) (hbb : unmarshalBody bb = none)
    (hst : st.stdinSet = true) (hcmd : st.cmdSet = true)
    (hc0 : st0.cmdSet = false) :
    (httpSendRequest h method params (.doFail : HTTPWire ρ)).healthy =
      false ∧
    (httpSendRequest h method params (.resp s ob)).healthy = false ∧
    (httpSendRequest h method params
      (.resp 200 (some (.jsonEnvelope ⟨none, some r⟩)))).healthy = true ∧
    (httpSendRequest h method params
      (.resp 200 (none : Option (HTTPBody ρ)))).healthy = h ∧
    (httpSendRequest h method params (.resp 200 (some bb))).healthy = h ∧
    (httpSendRequest h method params
      (.resp 200 (some (.jsonEnvelope ⟨some e, res⟩)))).healthy = h ∧
    (httpSendRequest h method params
      (.resp 200 (some (.jsonEnvelope ⟨none, (none : Option ρ)⟩)))).healthy =
      h ∧
    stdioSendRequest st method params (.writeFail : StdioWire ρ) =
      .returns (.error .writeFail)
        { st with healthy := false, reqID := st.reqID + 1 } st.reqID ∧
    stdioSendRequest st method params (.decodeFail : StdioWire ρ) =
      .returns (.error .decodeFail)
        { st with healthy := false, reqID := st.reqID + 1 } st.reqID ∧
    stdioSendRequest st method params (.envelope ⟨some e, res⟩) =
      .returns (.error (.remote e))
        { st with reqID := st.reqID + 1 } st.reqID ∧
    stdioSendRequest st method params (.envelope ⟨none, some r⟩) =
      .returns (.ok r)
        { st with healthy := true, reqID := st.reqID + 1 } st.reqID ∧
    (∀ (wire : HTTPWire ρ) (e2 : CallError),
      (httpSendJSONRPC h "initialize" params wire).res = .error e2 →
      (httpInitialize h params wire p).2 = false) ∧
    (httpInitialize h params
      (.resp 200 (some (.jsonEnvelope ⟨none, some r⟩)))
      (fun _ => (none : Option ι))).2 = true ∧
    (∀ (w : StdioWire ρ) (e2 : CallError) (st3 : StdioState) (sid : Int),
      stdioSendJSONRPC st "initialize" params w = .returns (.error e2) st3
        sid →
      stdioInitialize st spawn params w p =
        .fails e2 { st3 with healthy := false }) ∧
    (∀ w : StdioWire ρ,
      stdioInitialize st0 .stdinPipeFail params w p =
        .fails .startFail { st0 with cmdSet := true }) ∧
    stdioInitialize st spawn params (.envelope ⟨none, some r⟩)
      (fun _ => (none : Option ι)) =
      .fails .unmarshalFail
        { st with healthy := true, reqID := st.reqID + 1 } := by
  refine ⟨rfl, ?_, rfl, rfl, ?_, rfl, rfl, ?_, ?_, ?_, ?_, ?_, rfl, ?_, ?_,
    ?_⟩
  · simp [httpSendRequest, httpSendJSONRPC, hs]
  · simp [httpSendRequest, httpSendJSONRPC, hbb]
  · simp [stdioSendRequest, stdioSendJSONRPC, stdioBuildRequest, hst]
  · simp [stdioSendRequest, stdioSendJSONRPC, stdioBuildRequest, hst]
  · simp [stdioSendRequest, stdioSendJSONRPC, stdioBuildRequest, hst]
  · simp [stdioSendRequest, stdioSendJSONRPC, stdioBuildRequest, hst]
  · intro wire e2 hw
    simp [httpInitialize, hw]
  · intro w e2 st3 sid hw
    simp [stdioInitialize, stdioStart, hcmd, hw]
  · intro w
    simp [stdioInitialize, stdioStart, hc0]
  · simp [stdioInitialize, stdioStart, hcmd, stdioSendJSONRPC,
      stdioBuildRequest, hst]

/-- Witness for `backend_health_policy` at concrete states and wires. -/
theorem backend_health_policy_witness :
    (httpSendRequest true "tools/list" ()
      (.resp 500 (none : Option (HTTPBody Unit)))).healthy = false :=
  (backend_health_policy (ι := Unit) true ⟨true, true, true, 5⟩
    ⟨false, false, true, 1⟩ .started 500 none .malformed "boom" none ()
    "tools/list" () (fun _ => some ())
    (by decide) rfl rfl rfl rfl).2.1

/-- Counterexample to C4 as stated: an envelope-parse failure on HTTP
`SendRequest` leaves `healthy` unchanged (still `true`), and a remote
JSON-RPC error during `Initialize` *does* flip `healthy` to `false`. -/
theorem backend_health_policy_cex :
    (httpSendRequest true "tools/list" ()
      (.resp 200 (some (.malformed : HTTPBody Unit)))).res =
      .error .unmarshalFail ∧
    (httpSendRequest true "tools/list" ()
      (.resp 200 (some (.malformed : HTTPBody Unit)))).healthy = true ∧
    (httpInitialize (ι := Unit) true ()
      (.resp 200 (some (.jsonEnvelope (⟨some "boom", none⟩ : Envelope Unit))))
      (fun _ => some ())).2 = false :=
  ⟨rfl, rfl, rfl⟩

/-- C5 (amended): the HTTP backend parses the body only as a plain JSON
envelope; an SSE-framed body is never searched for a `data:` line — its
unmarshal fails and the call returns an envelope-parse error, unlike the
spec-modelled extraction `specExtractEnvelope` which recovers the same
envelope from both shapes. -/
theorem http_sse_not_extracted {π ρ : Type} (h : Bool) (method : String)
    (params : π) (env : Envelope ρ) :
    unmarshalBody (HTTPBody.jsonEnvelope env) = some env ∧
    unmarshalBody (HTTPBody.sseStream env) = none ∧
    specExtractEnvelope (HTTPBody.sseStream env) = some env ∧
    (httpSendRequest h method params
      (.resp 200 (some (.sseStream env)))).res = .error .unmarshalFail ∧
    (httpSendRequest h method params
      (.resp 200 (some (.sseStream env)))).healthy = h :=
  ⟨rfl, rfl, rfl, rfl, rfl⟩

/-- Counterexample to C5 as stated: the same envelope yields the decoded
result through a plain JSON body but an error through an SSE body. -/
theorem http_sse_cex :
    (httpSendRequest true "tools/list" ()
      (.resp 200 (some (.jsonEnvelope (⟨none, some ()⟩ : Envelope Unit))))).res
      = .ok () ∧
    (httpSendRequest true "tools/list" ()
      (.resp 200 (some (.sseStream (⟨none, some ()⟩ : Envelope Unit))))).res
      ≠ .ok () := by
  exact ⟨rfl, by decide⟩

/-- A stdio call on a started backend returns (never panics), consumes
`reqID` as the sent id, increments the counter and preserves `stdinSet`. -/
theorem stdioSend_returns {π ρ : Type} (st : StdioState) (method : String)
    (params : π) (w : StdioWire ρ) (hst : st.stdinSet = true) :
    ∃ r st2, stdioSendJSONRPC st method params w = .returns r st2 st.reqID ∧
      st2.stdinSet = true ∧ st2.reqID = st.reqID + 1 := by
  cases w with
  | writeFail =>
      exact ⟨.error .writeFail,
        { st with healthy := false, reqID := st.reqID + 1 },
        by simp [stdioSendJSONRPC, hst, stdioBuildRequest], hst, rfl⟩
  | decodeFail =>
      exact ⟨.error .decodeFail,
        { st with healthy := false, reqID := st.reqID + 1 },
        by simp [stdioSendJSONRPC, hst, stdioBuildRequest], hst, rfl⟩
  | envelope env =>
      obtain ⟨oe, orr⟩ := env
      cases oe with
      | some e =>
          exact ⟨.error (.remote e), { st with reqID := st.reqID + 1 },
            by simp [stdioSendJSONRPC, hst, stdioBuildRequest], hst, rfl⟩
      | none =>
          cases orr with
          | none =>
              exact ⟨.error .noResult, { st with reqID := st.reqID + 1 },
                by simp [stdioSendJSONRPC, hst, stdioBuildRequest], hst, rfl⟩
          | some r =>
              exact ⟨.ok r,
                { st with healthy := true, reqID := st.reqID + 1 },
                by simp [stdioSendJSONRPC, hst, stdioBuildRequest], hst, rfl⟩

/-- C6 (amended): a started stdio backend sends the strictly increasing id
sequence `reqID, reqID+1, …`, one id per call; the HTTP backend has no
counter and stamps every envelope with the constant id `1`. -/
theorem request_id_sequence {π ρ : Type} (st : StdioState) (method : String)
    (params : π) (wires : List (StdioWire ρ)) (hst : st.stdinSet = true) :
    stdioRunIds st method params wires =
      (List.range wires.length).map (fun i : Nat => st.reqID + (i : Int)) ∧
    (stdioRunIds st method params wires).Pairwise (· < ·) ∧
    ∀ (h : Bool) (wire : HTTPWire ρ),
      (httpSendJSONRPC h method params wire).sentId = 1 := by
  have hrun : stdioRunIds st method params wires =
      (List.range wires.length).map (fun i : Nat => st.reqID + (i : Int)) := by
    induction wires generalizing st with
    | nil => simp [stdioRunIds]
    | cons w ws ih =>
        obtain ⟨r, st2, hsend, hset, hid⟩ :=
          stdioSend_returns st method params w hst
        simp only [stdioRunIds, hsend]
        rw [ih st2 hset, hid]
        rw [List.length_cons, List.range_succ_eq_map]
        simp only [List.map_cons, List.map_map, Function.comp_def]
        congr 1
        · simp
        · apply List.map_congr_left
          intro i _
          push_cast
          ring
  refine ⟨hrun, ?_, ?_⟩
  · rw [hrun]
    refine List.Pairwise.map _ ?_ (List.pairwise_lt_range wires.length)
    intro a b hab
    omega
  · intro h wire
    cases wire with
    | doFail => rfl
    | resp status body =>
        unfold httpSendJSONRPC
        by_cases hsv : status != 200
        · simp [hsv, httpBuildRequest]
        · simp only [hsv, Bool.false_eq_true, if_false]
          cases body with
          | none => rfl
          | some b =>
              cases hb : unmarshalBody b with
              | none => simp [hb, httpBuildRequest]
              | some env =>
                  obtain ⟨oe, orr⟩ := env
                  cases oe with
                  | some e => simp [hb, httpBuildRequest]
                  | none =>
                      cases orr with
                      | none => simp [hb, httpBuildRequest]
                      | some r => simp [hb, httpBuildRequest]

/-- Witness for `request_id_sequence`: two successive successful calls on a
started stdio backend carry ids 1 then 2. -/
theorem request_id_sequence_witness :
    stdioRunIds (π := Unit) (ρ := Unit) ⟨true, true, true, 1⟩ "tools/call" ()
      [.envelope ⟨none, some ()⟩, .envelope ⟨none, some ()⟩] = [1, 2] := by
  have h := request_id_sequence (π := Unit) (ρ := Unit) ⟨true, true, true, 1⟩
    "tools/call" () [.envelope ⟨none, some ()⟩, .envelope ⟨none, some ()⟩] rfl
  exact h.1.trans (by decide)

/-- Counterexample to C6 as stated: two successive HTTP calls both send the
envelope id `1`, so the id sequence `[1, 1]` is not strictly increasing. -/
theorem request_id_sequence_cex :
    [(httpSendJSONRPC true "tools/call" ()
        (.resp 200 (some (.jsonEnvelope (⟨none, some ()⟩ :
          Envelope Unit))))).sentId,
     (httpSendJSONRPC
        (httpSendJSONRPC true "tools/call" ()
          (.resp 200 (some (.jsonEnvelope (⟨none, some ()⟩ :
            Envelope Unit))))).healthy
        "tools/call" ()
        (.resp 200 (some (.jsonEnvelope (⟨none, some ()⟩ :
          Envelope Unit))))).sentId] = [1, 1] ∧
    ¬ ([(1 : Int), 1].Pairwise (· < ·)) := by
  refine ⟨rfl, ?_⟩
  intro hp
  have := (List.pairwise_cons.mp hp).1 1 (by simp)
  omega

/-- A stdio call on a state with the stdin pipe present never panics. -/
theorem stdioSend_not_panics {π ρ : Type} (st : StdioState) (method : String)
    (params : π) (w : StdioWire ρ) (hst : st.stdinSet = true) :
    stdioSendJSONRPC st method params w ≠ .panics := by
  obtain ⟨r, st2, hsend, _, _⟩ := stdioSend_returns st method params w hst
  rw [hsend]
  intro hcontra
  cases hcontra

/-- C10: `StdioBackend.SendRequest` issued on a fresh backend (before any
`Initialize`) dereferences the nil stdin pipe — it panics rather than
returning an error — while after a successful `Initialize` the pipe exists
and the panic branch is unreachable. -/
theorem stdio_requires_initialize {π ρ ι : Type} (st : StdioState)
    (spawn : SpawnOutcome) (params : π) (wire : StdioWire ρ)
    (parseInit : ρ → Option ι) (res : ι) (st2 : StdioState)
    (h : stdioInitialize st spawn params wire parseInit = .ok res st2) :
    (∀ (method : String) (w : StdioWire ρ),
        stdioSendRequest newStdioBackend method params w = .panics) ∧
    st2.stdinSet = true ∧
    (∀ (method : String) (w : StdioWire ρ),
        stdioSendRequest st2 method params w ≠ .panics) := by
  have hset : st2.stdinSet = true := by
    unfold stdioInitialize at h
    rcases hstart : stdioStart st spawn with ⟨ok1, st1⟩
    simp only [hstart] at h
    cases ok1 with
    | false => simp at h
    | true =>
        have hst1 : st1.stdinSet = true := by
          by_cases hs1 : st1.stdinSet = true
          · exact hs1
          · exfalso
            have hpan : stdioSendJSONRPC st1 "initialize" params wire =
                (.panics : StdioResult ρ) := by
              unfold stdioSendJSONRPC
              simp [hs1]
            simp only [hpan] at h
            simp at h
        obtain ⟨r, st3, hsend, hset3, _⟩ :=
          stdioSend_returns st1 "initialize" params wire hst1
        simp only [hsend] at h
        cases r with
        | error e => simp at h
        | ok rr =>
            cases hp : parseInit rr with
            | none => simp only [hp] at h; simp at h
            | some res2 =>
                simp only [hp] at h
                cases h
                exact hset3
  refine ⟨?_, hset, ?_⟩
  · intro method w
    rfl
  · intro method w
    exact stdioSend_not_panics st2 method params w hset

/-- Witness for `stdio_requires_initialize`: a fresh backend panics on
`SendRequest`, the state after one successful `Initialize` does not. -/
theorem stdio_requires_initialize_witness :
    stdioSendRequest (π := Unit) (ρ := Unit) newStdioBackend "tools/list" ()
      (.envelope ⟨none, some ()⟩) = .panics ∧
    stdioSendRequest (π := Unit) (ρ := Unit) ⟨true, true, true, 2⟩
      "tools/list" () (.envelope ⟨none, some ()⟩) ≠ .panics := by
  have h := stdio_requires_initialize (ι := Unit) newStdioBackend .started ()
    (.envelope ⟨none, some ()⟩) (fun _ => some ()) () ⟨true, true, true, 2⟩
    rfl
  exact ⟨h.1 "tools/list" (.envelope ⟨none, some ()⟩),
    h.2.2 "tools/list" (.envelope ⟨none, some ()⟩)⟩

/-! ### Configuration validation (`config/config.go`) and registry build
(`gateway/gateway.go` + `BackendManager.AddBackend`) -/

/-- `config.Backend`: the fields `validateBackend` inspects (args, env and
headers play no role in validation). -/
structure BackendConf where
  name : String
  transport : String
  command : String
  endpoint : String
deriving DecidableEq, Repr

/-- `config.Group`: the group name and the values of its
`map[string]Backend` (validation and gateway construction iterate the
values; iteration order is immaterial here). -/
structure GroupConf where
  name : String
  backends : List BackendConf
deriving DecidableEq, Repr

/-- `config.Config`: the fields `validateConfig` inspects. -/
structure Config where
  port : Int
  endpoint : String
  groups : List GroupConf
deriving DecidableEq, Repr

/-- `validateBackend`: stdio requires a command, http an endpoint, any other
transport is rejected. -/
def validateBackend (b : BackendConf) (groupName : String) :
    Except String Unit :=
  if b.transport == "stdio" then
    if b.command == "" then
      .error ("command is required for stdio transport in backend " ++
        b.name ++ " (group " ++ groupName ++ ")")
    else .ok ()
  else if b.transport == "http" then
    if b.endpoint == "" then
      .error ("endpoint is required for http transport in backend " ++
        b.name ++ " (group " ++ groupName ++ ")")
    else .ok ()
  else
    .error ("unsupported transport type " ++ b.transport ++ " in backend " ++
      b.name ++ " (group " ++ groupName ++ ")")

/-- The inner loop of `validateConfig` over the backends of one group, carrying
the `backendNames` duplicate set — note the set is local to the group. -/
def checkBackends (groupName : String) (bs : List BackendConf)
    (seen : List String) : Except String Unit :=
  match bs with
  | [] => .ok ()
  | b :: rest =>
      if b.name == "" then
        .error ("backend name cannot be empty in group " ++ groupName)
      else if scontains seen b.name then
        .error ("duplicate backend name " ++ b.name ++ " in group " ++
          groupName)
      else
        match validateBackend b groupName with
        | .error e => .error e
        | .ok _ => checkBackends groupName rest (b.name :: seen)

/-- The outer loop of `validateConfig` over the groups, carrying the
`groupNames` duplicate set. -/
def checkGroups (gs : List GroupConf) (seenGroups : List String) :
    Except String Unit :=
  match gs with
  | [] => .ok ()
  | g :: rest =>
      if g.name == "" then .error "group name cannot be empty"
      else if scontains seenGroups g.name then
        .error ("duplicate group name: " ++ g.name)
      else if g.backends.isEmpty then
        .error ("group " ++ g.name ++ " must have at least one backend")
      else
        match checkBackends g.name g.backends [] with
        | .error e => .error e
        | .ok _ => checkGroups rest (g.name :: seenGroups)

/-- `validateConfig`. -/
def validateConfig (c : Config) : Except String Unit :=
  if c.port ≤ 0 || c.port > 65535 then
    .error "invalid port number"
  else if c.endpoint == "" then
    .error "gateway endpoint cannot be empty"
  else if c.groups.isEmpty then
    .error "at least one group must be defined"
  else checkGroups c.groups []

/-- The registry `NewGateway` builds: for every group, for every backend
entry, `AddBackend` inserts by `GetInfo().Name` — `minsert`, which
overwrites an existing entry with the same name. Values record the owning
group and the backend entry. -/
def buildRegistry (c : Config) : List (String × (String × BackendConf)) :=
  c.groups.foldl
    (fun reg g =>
      g.backends.foldl (fun reg2 b => minsert reg2 b.name (g.name, b)) reg)
    []

/-- All backend names of a configuration, across all groups. -/
def allBackendNames (c : Config) : List String :=
  (c.groups.flatMap (fun g => g.backends)).map (fun b => b.name)

/-- Within one group, an accepted backends list has pairwise distinct names
and none of them in `seen`. -/
theorem checkBackends_nodup (groupName : String) (bs : List BackendConf)
    (seen : List String) (h : checkBackends groupName bs seen = .ok ()) :
    (bs.map (fun b => b.name)).Nodup ∧
      ∀ b ∈ bs, scontains seen b.name = false := by
  induction bs generalizing seen with
  | nil => simp
  | cons b rest ih =>
      unfold checkBackends at h
      by_cases h1 : b.name == ""
      · simp [h1] at h
      · by_cases h2 : scontains seen b.name
        · simp [h1, h2] at h
        · simp only [h1, Bool.false_eq_true, if_false, h2] at h
          cases hv : validateBackend b groupName with
          | error e => rw [hv] at h; simp at h
          | ok u =>
              rw [hv] at h
              obtain ⟨hnd, hseen⟩ := ih (b.name :: seen) h
              refine ⟨?_, ?_⟩
              · simp only [List.map_cons, List.nodup_cons]
                refine ⟨?_, hnd⟩
                intro hmem
                obtain ⟨b2, hb2, hname⟩ := List.mem_map.mp hmem
                have := hseen b2 hb2
                rw [← hname] at this
                simp [scontains] at this
              · intro b2 hb2
                rcases List.mem_cons.mp hb2 with h3 | h3
                · subst h3
                  simpa using h2
                · have := hseen b2 h3
                  simp only [scontains, Bool.or_eq_false_iff] at this
                  exact this.2

theorem checkGroups_each (gs : List GroupConf) (seenGroups : List String)
    (h : checkGroups gs seenGroups = .ok ()) :
    ∀ g ∈ gs, checkBackends g.name g.backends [] = .ok () := by
  induction gs generalizing seenGroups with
  | nil => simp
  | cons g rest ih =>
      unfold checkGroups at h
      by_cases h1 : g.name == ""
      · simp [h1] at h
      · by_cases h2 : scontains seenGroups g.name
        · simp [h1, h2] at h
        · by_cases h3 : g.backends.isEmpty
          · simp [h1, h2, h3] at h
          · simp only [h1, Bool.false_eq_true, if_false, h2, h3] at h
            cases hc : checkBackends g.name g.backends [] with
            | error e => rw [hc] at h; simp at h
            | ok u =>
                rw [hc] at h
                intro g2 hg2
                rcases List.mem_cons.mp hg2 with h4 | h4
                · subst h4
                  cases u
                  exact hc
                · exact ih (g.name :: seenGroups) h g2 h4

/-- C9 (amended): a configuration accepted by `validateConfig` has backend
names unique *within each group*; global uniqueness across groups is not
enforced. -/
theorem accepted_config_group_unique (c : Config)
    (h : validateConfig c = .ok ()) :
    ∀ g ∈ c.groups, (g.backends.map (fun b => b.name)).Nodup := by
  unfold validateConfig at h
  by_cases h1 : c.port ≤ 0 || c.port > 65535
  · simp [h1] at h
  · by_cases h2 : c.endpoint == ""
    · simp [h1, h2] at h
    · by_cases h3 : c.groups.isEmpty
      · simp [h1, h2, h3] at h
      · simp only [h1, Bool.false_eq_true, if_false, h2, h3] at h
        intro g hg
        exact (checkBackends_nodup g.name g.backends []
          (checkGroups_each c.groups [] h g hg)).1

/-- The duplicate-across-groups configuration: two groups each declare a
backend named `b`. -/
def dupConfig : Config :=
  { port := 8080, endpoint := "/mcp",
    groups :=
      [⟨"g1", [⟨"b", "http", "", "http://one/mcp"⟩]⟩,
       ⟨"g2", [⟨"b", "http", "", "http://two/mcp"⟩]⟩] }

/-- Witness for `accepted_config_group_unique` on the first group of
`dupConfig`. -/
theorem accepted_config_group_unique_witness :
    (((⟨"g1", [⟨"b", "http", "", "http://one/mcp"⟩]⟩ : GroupConf)).backends.map
      (fun b => b.name)).Nodup :=
  accepted_config_group_unique dupConfig (by decide)
    ⟨"g1", [⟨"b", "http", "", "http://one/mcp"⟩]⟩ (by decide)

/-- Counterexample to C9 as stated: `dupConfig` passes `validateConfig`,
its backend names are not globally unique, and building the registry makes
the second `AddBackend` overwrite the first — only the entry of group `g2`
survives. -/
theorem global_uniqueness_cex :
    validateConfig dupConfig = .ok () ∧
    ¬ (allBackendNames dupConfig).Nodup ∧
    buildRegistry dupConfig =
      [("b", ("g2", ⟨"b", "http", "", "http://two/mcp"⟩))] := by
  refine ⟨by decide, by decide, by decide⟩

end MCPProxy
